import Mathlib

/-!
Verification of the MauiRemoteLogging transport layer.

Shallow embedding of the log-transport core of the MauiRemoteLogging
repository:

* receiving side (`main.js`): the per-connection frame decoder
  (`socket.on('data')` / `socket.on('close')` handlers inside
  `startLogServer`), the batch aggregator (`queueLogs` and its one-shot
  timer), the `[SERVER]`/`[MANUAL]` diagnostic injection
  (`logToServerUI`, the `add-manual-log` IPC handler), and the
  `start-server` / `stop-server` IPC handlers;
* sending side (`RemoteLoggingClientService.cs`): the channel-backed
  outbound queue (`EnqueueLog`), the structured-entry formatter, the
  consumer loop (`ConsumeLogEntries`), `ConnectWithRetryAsync`,
  `SendLogAsync` and `Dispose`.

Decode buffers are `List Char`: the JavaScript handler keeps a string
buffer and appends `data.toString()` for each chunk.  Network chunks
are byte lists (`List Nat`); the per-chunk `data.toString()` conversion
is modelled by `utf8Decode`, the WHATWG UTF-8 decode with U+FFFD
replacement-character substitution that Node's `Buffer.toString('utf8')`
performs — so a chunk boundary inside a multi-byte character is
decoded to replacement characters, exactly as on the platform.
Asynchronous effects (timers, sockets, awaits) are modelled by explicit
state passing; external outcomes (connect attempts, socket writes,
timer firings) are oracle parameters.
-/

namespace MauiRemoteLogging

/-! ## Receiving side: frame decoder (main.js, `socket.on('data')`) -/

/-- JavaScript `String.prototype.trim` whitespace test, restricted to the
ASCII whitespace characters (space, tab, line feed, vertical tab, form
feed, carriage return). -/
def isJsWhitespace (c : Char) : Bool :=
  c == ' ' || c == '\t' || c == '\n' || c == '\x0B' || c == '\x0C' || c == '\r'

/-- JavaScript `s.trim()`: remove leading and trailing whitespace. -/
def trim (s : List Char) : List Char :=
  ((s.dropWhile isJsWhitespace).reverse.dropWhile isJsWhitespace).reverse

/-- The line-extraction loop of the `socket.on('data')` handler in
`startLogServer` (main.js): while the buffer contains a newline, take the
text before the first newline, drop it (and the newline) from the buffer,
trim it, and emit it when non-empty.  Returns the emitted lines and the
final buffer. -/
def processBuffer (buffer : List Char) : List (List Char) × List Char :=
  if h : '\n' ∈ buffer then
    let line := trim (buffer.takeWhile (fun c => c != '\n'))
    let rest := (buffer.dropWhile (fun c => c != '\n')).tail
    let r := processBuffer rest
    (if 0 < line.length then line :: r.1 else r.1, r.2)
  else
    ([], buffer)
termination_by buffer.length
decreasing_by
  have key : ∀ l : List Char, '\n' ∈ l →
      (l.dropWhile (fun c => c != '\n')).tail.length < l.length := by
    intro l hl
    induction l with
    | nil => cases hl
    | cons x xs ih =>
      by_cases hx : x = '\n'
      · subst hx
        simp [List.dropWhile_cons]
      · have hmem : '\n' ∈ xs := by
          rcases List.mem_cons.mp hl with h1 | h1
          · exact absurd h1.symm hx
          · exact h1
        have hxb : (x != '\n') = true := by simp [hx]
        simp only [List.dropWhile_cons, hxb, if_true]
        exact Nat.lt_trans (ih hmem) (by simp)
  exact key buffer h

/-- The `socket.on('data')` handler: append the incoming chunk to the
connection's buffer, then run the line-extraction loop. -/
def onData (buffer data : List Char) : List (List Char) × List Char :=
  processBuffer (buffer ++ data)

/-- Feeding a sequence of chunks to one connection's data handler,
threading the decode buffer, collecting all emitted records in order. -/
def feedChunks (buffer : List Char) : List (List Char) → List (List Char) × List Char
  | [] => ([], buffer)
  | d :: ds =>
    let r := onData buffer d
    let rr := feedChunks r.2 ds
    (r.1 ++ rr.1, rr.2)

/-- The `socket.on('close')` handler's residual-flush (main.js): if the
trimmed leftover buffer is non-empty, emit it as one final record. -/
def onClose (buffer : List Char) : List (List Char) :=
  if 0 < (trim buffer).length then [trim buffer] else []

/-! ### Analysis helpers for the decoder

`linesAndRest s` splits `s` at newline characters into the list of
complete (newline-terminated) lines and the trailing unterminated
fragment.  It is the specification-side description of what the
imperative loop of `processBuffer` computes. -/

/-- Split a character sequence into its newline-terminated lines and the
trailing fragment after the last newline. -/
def linesAndRest : List Char → List (List Char) × List Char
  | [] => ([], [])
  | c :: cs =>
    let r := linesAndRest cs
    if c = '\n' then ([] :: r.1, r.2)
    else
      match r.1 with
      | [] => ([], c :: r.2)
      | l :: ls => ((c :: l) :: ls, r.2)

/-- The complete (newline-terminated) lines of a character sequence. -/
def completeLines (s : List Char) : List (List Char) :=
  (linesAndRest s).1

/-- The trailing fragment after the last newline of a character sequence. -/
def residual (s : List Char) : List Char :=
  (linesAndRest s).2

/-- The records that the decoder emits for a character sequence: each
complete line, trimmed, with empty results discarded. -/
def emittedOf (s : List Char) : List (List Char) :=
  ((completeLines s).map trim).filter (fun l => decide (0 < l.length))

/-- Prepend a leftover fragment to a line/rest split: the fragment merges
into the first complete line if there is one, otherwise into the rest. -/
def combineSplit (r : List Char) (p : List (List Char) × List Char) :
    List (List Char) × List Char :=
  match p.1 with
  | [] => ([], r ++ p.2)
  | l :: ls => ((r ++ l) :: ls, p.2)

/-! ### Byte-level chunk decoding

Platform semantics of Node's `Buffer.toString('utf8')`, invoked by the
data handler once per received chunk: WHATWG UTF-8 decoding, where every
maximal subpart of an invalid or truncated sequence becomes one U+FFFD
replacement character.  Bytes are `Nat` values below 256. -/

/-- A UTF-8 continuation byte (`0x80`–`0xBF`). -/
def isUtf8Cont (b : Nat) : Bool := 0x80 ≤ b && b ≤ 0xBF

/-- Allowed first continuation byte after a three-byte lead `b`
(excluding overlong encodings and surrogates). -/
def utf8First3Ok (b b1 : Nat) : Bool :=
  if b = 0xE0 then 0xA0 ≤ b1 && b1 ≤ 0xBF
  else if b = 0xED then 0x80 ≤ b1 && b1 ≤ 0x9F
  else isUtf8Cont b1

/-- Allowed first continuation byte after a four-byte lead `b`
(excluding overlong encodings and code points above `U+10FFFF`). -/
def utf8First4Ok (b b1 : Nat) : Bool :=
  if b = 0xF0 then 0x90 ≤ b1 && b1 ≤ 0xBF
  else if b = 0xF4 then 0x80 ≤ b1 && b1 ≤ 0x8F
  else isUtf8Cont b1

/-- The U+FFFD replacement character. -/
def replacementChar : Char := Char.ofNat 0xFFFD

/-- WHATWG UTF-8 decoding (Node's `Buffer.toString('utf8')`): decode
each well-formed sequence to its character; emit one `replacementChar`
per maximal subpart of an invalid or truncated sequence (an offending
byte after a valid lead is reconsumed as a fresh lead). -/
def utf8Decode : List Nat → List Char
  | [] => []
  | b :: bs =>
    if b < 0x80 then
      Char.ofNat b :: utf8Decode bs
    else if 0xC2 ≤ b ∧ b ≤ 0xDF then
      match bs with
      | [] => [replacementChar]
      | b1 :: rest =>
        if isUtf8Cont b1 then
          Char.ofNat ((b - 0xC0) * 0x40 + (b1 - 0x80)) :: utf8Decode rest
        else
          replacementChar :: utf8Decode (b1 :: rest)
    else if 0xE0 ≤ b ∧ b ≤ 0xEF then
      match bs with
      | [] => [replacementChar]
      | b1 :: rest =>
        if utf8First3Ok b b1 then
          match rest with
          | [] => [replacementChar]
          | b2 :: rest2 =>
            if isUtf8Cont b2 then
              Char.ofNat ((b - 0xE0) * 0x1000 + (b1 - 0x80) * 0x40 + (b2 - 0x80)) ::
                utf8Decode rest2
            else
              replacementChar :: utf8Decode (b2 :: rest2)
        else
          replacementChar :: utf8Decode (b1 :: rest)
    else if 0xF0 ≤ b ∧ b ≤ 0xF4 then
      match bs with
      | [] => [replacementChar]
      | b1 :: rest =>
        if utf8First4Ok b b1 then
          match rest with
          | [] => [replacementChar]
          | b2 :: rest2 =>
            if isUtf8Cont b2 then
              match rest2 with
              | [] => [replacementChar]
              | b3 :: rest3 =>
                if isUtf8Cont b3 then
                  Char.ofNat ((b - 0xF0) * 0x40000 + (b1 - 0x80) * 0x1000 +
                    (b2 - 0x80) * 0x40 + (b3 - 0x80)) :: utf8Decode rest3
                else
                  replacementChar :: utf8Decode (b3 :: rest3)
            else
              replacementChar :: utf8Decode (b2 :: rest2)
        else
          replacementChar :: utf8Decode (b1 :: rest)
    else
      replacementChar :: utf8Decode bs

/-- A byte list is well-formed UTF-8: it is a concatenation of complete,
valid character encodings.  A split of a well-formed stream falls on
character boundaries exactly when every resulting chunk again satisfies
this predicate. -/
def utf8Valid : List Nat → Bool
  | [] => true
  | b :: bs =>
    if b < 0x80 then utf8Valid bs
    else if 0xC2 ≤ b ∧ b ≤ 0xDF then
      match bs with
      | [] => false
      | b1 :: rest => isUtf8Cont b1 && utf8Valid rest
    else if 0xE0 ≤ b ∧ b ≤ 0xEF then
      match bs with
      | [] => false
      | b1 :: rest =>
        utf8First3Ok b b1 &&
          match rest with
          | [] => false
          | b2 :: rest2 => isUtf8Cont b2 && utf8Valid rest2
    else if 0xF0 ≤ b ∧ b ≤ 0xF4 then
      match bs with
      | [] => false
      | b1 :: rest =>
        utf8First4Ok b b1 &&
          match rest with
          | [] => false
          | b2 :: rest2 =>
            isUtf8Cont b2 &&
              match rest2 with
              | [] => false
              | b3 :: rest3 => isUtf8Cont b3 && utf8Valid rest3
    else false

/-! ## Receiving side: batch aggregator (main.js, `queueLogs` and the
one-shot `batchTimer`)

The timer is modelled by `Option Nat`: `some id` is an armed one-shot
timer with identity `id` (so that re-arming would be observable as a
change of identity), `none` is an unarmed timer.  The browser window
(the delivery sink) is a boolean oracle at fire time. -/

/-- State of the batch aggregator: the pending `logQueue` and the
`batchTimer` handle. -/
structure BatchState where
  logQueue : List String
  batchTimer : Option Nat
  deriving DecidableEq

/-- `queueLogs` (main.js): push the logs onto the queue; arm the one-shot
timer only when no timer is pending (`if (!batchTimer)`).  `newTimerId`
is the identity the fresh timer would get. -/
def queueLogs (st : BatchState) (logs : List String) (newTimerId : Nat) : BatchState :=
  { logQueue := st.logQueue ++ logs
    batchTimer := match st.batchTimer with
      | some t => some t
      | none => some newTimerId }

/-- The `setTimeout` callback armed by `queueLogs`: if the queue is
non-empty and the window exists, send the whole queue as one batch and
clear it; in every case clear the timer handle. -/
def fireBatchTimer (st : BatchState) (mainWindowPresent : Bool) :
    BatchState × Option (List String) :=
  if 0 < st.logQueue.length && mainWindowPresent then
    ({ logQueue := [], batchTimer := none }, some st.logQueue)
  else
    ({ st with batchTimer := none }, none)

/-- `logToServerUI` (main.js): queue one receiving-side diagnostic record,
prefixed with `[SERVER] `. -/
def logToServerUI (st : BatchState) (message : String) (newTimerId : Nat) : BatchState :=
  queueLogs st ["[SERVER] " ++ message] newTimerId

/-- The `add-manual-log` IPC handler (main.js): queue one locally injected
record, prefixed with `[MANUAL] `. -/
def addManualLog (st : BatchState) (logText : String) (newTimerId : Nat) : BatchState :=
  queueLogs st ["[MANUAL] " ++ logText] newTimerId

/-- Events observable by the batch aggregator. -/
inductive ServerEvent where
  /-- Decoded producer lines handed to `queueLogs` by a data handler. -/
  | dataLines (lines : List String)
  /-- A receiving-side diagnostic routed through `logToServerUI`. -/
  | serverDiag (message : String)
  /-- A manual entry routed through the `add-manual-log` handler. -/
  | manualLog (text : String)
  /-- The armed one-shot batch timer fires (window present). -/
  | timerFire

/-- One step of the aggregator.  A `timerFire` only has an effect when a
timer is armed (a one-shot timer that was never set cannot fire). -/
def serverStep (st : BatchState) (newTimerId : Nat) :
    ServerEvent → BatchState × Option (List String)
  | ServerEvent.dataLines lines => (queueLogs st lines newTimerId, none)
  | ServerEvent.serverDiag m => (logToServerUI st m newTimerId, none)
  | ServerEvent.manualLog t => (addManualLog st t newTimerId, none)
  | ServerEvent.timerFire =>
    if st.batchTimer.isSome then fireBatchTimer st true else (st, none)

/-- Run a sequence of aggregator events, collecting the delivered
batches in order; fresh timer identities are drawn from a counter. -/
def runServer (st : BatchState) (newTimerId : Nat) :
    List ServerEvent → BatchState × List (List String)
  | [] => (st, [])
  | e :: es =>
    let r := serverStep st newTimerId e
    let rr := runServer r.1 (newTimerId + 1) es
    (rr.1, r.2.toList ++ rr.2)

/-- The producer-sent lines of an event trace (the records that arrived
over the network, as opposed to `[SERVER]`/`[MANUAL]` injections). -/
def producerLines : List ServerEvent → List String
  | [] => []
  | ServerEvent.dataLines ls :: es => ls ++ producerLines es
  | _ :: es => producerLines es

/-! ## Receiving side: start/stop IPC handlers (main.js) -/

/-- Receiving-side application state: the global `server` handle (the
port it was created for, when present), the `isStopping` flag, the
`clientSockets` set, and the shared batch aggregator. -/
structure AppState where
  server : Option Nat
  isStopping : Bool
  clientSockets : List Nat
  batch : BatchState
  deriving DecidableEq

/-- Result of the `start-server` IPC handler. -/
inductive StartResult where
  /-- `{ success: true, port }`. -/
  | ok (port : Nat)
  /-- The handler threw an `Error` with the given message. -/
  | error (msg : String)
  deriving DecidableEq

/-- The rejection message chosen by the `start-server` handler. -/
def startRejectMsg (st : AppState) : String :=
  if st.isStopping then "Server is currently stopping. Please wait."
  else "Server is already running."

/-- The `start-server` IPC handler (main.js): reject when a server exists
or a stop is in progress; otherwise run `startLogServer`, whose outcome
(bind success or `EADDRINUSE`) is the oracle `bindOk`. -/
def handleStartServer (st : AppState) (port : Nat) (bindOk : Bool) (newTimerId : Nat) :
    AppState × StartResult :=
  if st.server.isSome || st.isStopping then
    ({ st with batch := logToServerUI st.batch (startRejectMsg st) newTimerId },
     StartResult.error (startRejectMsg st))
  else if bindOk then
    ({ st with server := some port
               batch := logToServerUI st.batch
                 ("Server started and listening on port " ++ toString port) newTimerId },
     StartResult.ok port)
  else
    ({ st with server := none
               batch := logToServerUI st.batch
                 ("Error: Port " ++ toString port ++ " is already in use.") newTimerId },
     StartResult.error ("Port " ++ toString port ++ " is already in use."))

/-- First phase of `stopLogServer` (main.js), entered when a server
exists: set `isStopping`, log the closing notice, destroy every client
socket and clear the registry, and initiate `server.close`. -/
def stopLogServerBegin (st : AppState) (newTimerId : Nat) : AppState :=
  { st with isStopping := true
            batch := logToServerUI st.batch
              ("Closing " ++ toString st.clientSockets.length ++ " client connections...")
              newTimerId
            clientSockets := [] }

/-- Second phase of `stopLogServer`: the `server.close` callback logs the
stop notice, clears the server handle, then clears `isStopping`. -/
def stopLogServerFinish (st : AppState) (newTimerId : Nat) : AppState :=
  { st with server := none
            isStopping := false
            batch := logToServerUI st.batch "Server stopped." newTimerId }

/-- The `stop-server` IPC handler (main.js): when no server exists, log a
diagnostic and report success; otherwise run `stopLogServer` to
completion and report success. -/
def handleStopServer (st : AppState) (newTimerId : Nat) : AppState × Bool :=
  match st.server with
  | none => ({ st with batch := logToServerUI st.batch "Server is not running." newTimerId }, true)
  | some _ => (stopLogServerFinish (stopLogServerBegin st newTimerId) (newTimerId + 1), true)

/-! ## Sending side: `RemoteLoggingClientService` (C#)

The unbounded `Channel<string>` is the `queue`/`writerCompleted` pair;
`TryWrite` on an unbounded channel appends and returns `true` unless the
writer has been completed, in which case it returns `false` and changes
nothing.  `TcpClient` instances are numbered by `clientGen`; the
installed `StreamWriter` (if any) carries the generation of the client
it wraps.  Successful `WriteLineAsync` calls are recorded in `sent`.
Connect attempts and socket writes are boolean oracles. -/

/-- State of one `RemoteLoggingClientService` instance. -/
structure ClientState where
  /-- Pending messages in the unbounded channel, FIFO. -/
  queue : List String
  /-- `_writer.Complete()` has been called (only by `Dispose`). -/
  writerCompleted : Bool
  /-- `_cancellationTokenSource.Cancel()` has been called. -/
  cancellationRequested : Bool
  /-- `_isConnected`. -/
  isConnected : Bool
  /-- Generation of the `StreamWriter` installed over the live client. -/
  streamWriter : Option Nat
  /-- Generation counter of `TcpClient` instances created so far. -/
  clientGen : Nat
  /-- `RetryDelay` in milliseconds (property default 5000). -/
  RetryDelay : Nat
  /-- Transcript of successfully written log messages, in order. -/
  sent : List String
  deriving DecidableEq

/-- The property default `RetryDelay { get; set; } = 5000;`. -/
def defaultRetryDelay : Nat := 5000

/-- A freshly constructed service: empty channel, open writer, not
connected, no stream writer, default retry delay. -/
def initialClientState : ClientState :=
  { queue := []
    writerCompleted := false
    cancellationRequested := false
    isConnected := false
    streamWriter := none
    clientGen := 0
    RetryDelay := defaultRetryDelay
    sent := [] }

/-- `EnqueueLog(string)`: `_writer.TryWrite(logMessage)`.  A synchronous,
non-suspending call: appends to the unbounded channel unless the writer
has been completed, in which case it is a silent no-op. -/
def EnqueueLog (st : ClientState) (logMessage : String) : ClientState :=
  if st.writerCompleted then st
  else { st with queue := st.queue ++ [logMessage] }

/-- The C# `LogLevel` enumeration. -/
inductive LogLevel where
  | Trace | Info | Warning | Error
  deriving DecidableEq

/-- `LogLevel.ToString()` as used by string interpolation. -/
def LogLevel.toText : LogLevel → String
  | LogLevel.Trace => "Trace"
  | LogLevel.Info => "Info"
  | LogLevel.Warning => "Warning"
  | LogLevel.Error => "Error"

/-- `Environment.NewLine`.  Platform-dependent (`"\r\n"` on Windows,
`"\n"` elsewhere); both values contain the line-feed character, which is
all the theorems below rely on. -/
def envNewLine : String := "\n"

/-- The formatting performed by `EnqueueLog(LogLevel, ...)`:
`$"[{level}] [{source}::{methodName}] {message}"`, with the exception
text appended after `Environment.NewLine` when an exception is given. -/
def formatLogEntry (level : LogLevel) (source message : String)
    (exception : Option String) (methodName : String) : String :=
  let logEntry := "[" ++ level.toText ++ "] [" ++ source ++ "::" ++ methodName ++ "] " ++ message
  match exception with
  | none => logEntry
  | some ex => logEntry ++ envNewLine ++ ex

/-- `EnqueueLog(LogLevel, string, string, Exception, string)`: format the
structured entry, then enqueue the resulting text. -/
def EnqueueLogStructured (st : ClientState) (level : LogLevel) (source message : String)
    (exception : Option String) (methodName : String) : ClientState :=
  EnqueueLog st (formatLogEntry level source message exception methodName)

/-- The body of the `while` loop of `ConnectWithRetryAsync`, entered with
`_isConnected == false`: each iteration disposes the previous
`TcpClient` and creates a fresh one; on a successful connect it installs
a fresh `StreamWriter` and sets `_isConnected`; on failure it waits
`RetryDelay` milliseconds and retries.  `outcomes` lists the result of
each connect attempt; exhausting it models cancellation being requested.
Returns the new state and the number of retry delays waited. -/
def connectLoop : ClientState → List Bool → ClientState × Nat
  | st, [] => (st, 0)
  | st, ok :: rest =>
    let gen := st.clientGen + 1
    if ok then
      ({ st with clientGen := gen, streamWriter := some gen, isConnected := true }, 0)
    else
      let r := connectLoop { st with clientGen := gen, isConnected := false } rest
      (r.1, r.2 + 1)

/-- `ConnectWithRetryAsync`: loop while not connected and not cancelled. -/
def ConnectWithRetryAsync (st : ClientState) (outcomes : List Bool) : ClientState × Nat :=
  if st.isConnected then (st, 0) else connectLoop st outcomes

/-- `SendLogAsync`: `await _streamWriter.WriteLineAsync(logMessage)`.  On
failure the catch-all clears `_isConnected` and disposes the stream
writer and client; no exception escapes. -/
def SendLogAsync (st : ClientState) (logMessage : String) (writeOk : Bool) : ClientState :=
  if writeOk then { st with sent := st.sent ++ [logMessage] }
  else { st with isConnected := false, streamWriter := none }

/-- One iteration of `ConsumeLogEntries`: read the next message from the
channel (removing it); if not connected, run `ConnectWithRetryAsync`;
if connected afterwards, send the message. -/
def consumeStep (st : ClientState) (connectOutcomes : List Bool) (writeOk : Bool) :
    ClientState :=
  match st.queue with
  | [] => st
  | logMessage :: rest =>
    let st1 := { st with queue := rest }
    let st2 := if st1.isConnected then st1
               else (ConnectWithRetryAsync st1 connectOutcomes).1
    if st2.isConnected then SendLogAsync st2 logMessage writeOk else st2

/-- `Dispose`: complete the channel writer (permanently closing the
queue), cancel the consumer, and dispose the stream writer and client. -/
def Dispose (st : ClientState) : ClientState :=
  { st with writerCompleted := true
            cancellationRequested := true
            streamWriter := none }

/-! ## Lemmas about the frame decoder -/

/-- Dropping the prefix before a newline and the newline itself shortens
the buffer. -/
theorem dropWhile_tail_length_lt (s : List Char) (h : '\n' ∈ s) :
    ((s.dropWhile (fun c => c != '\n')).tail).length < s.length := by
  induction s with
  | nil => cases h
  | cons x xs ih =>
    by_cases hx : x = '\n'
    · subst hx
      simp [List.dropWhile_cons]
    · have hmem : '\n' ∈ xs := by
        rcases List.mem_cons.mp h with h1 | h1
        · exact absurd h1.symm hx
        · exact h1
      have hxb : (x != '\n') = true := by simp [hx]
      simp only [List.dropWhile_cons, hxb, if_true]
      exact Nat.lt_trans (ih hmem) (by simp)

/-- A newline-free sequence has no complete line: it is all residual. -/
theorem linesAndRest_of_not_mem {s : List Char} (h : '\n' ∉ s) :
    linesAndRest s = ([], s) := by
  induction s with
  | nil => rfl
  | cons c cs ih =>
    have hc : ¬ c = '\n' := fun hc => h (hc ▸ List.mem_cons_self c cs)
    have hcs : '\n' ∉ cs := fun hm => h (List.mem_cons_of_mem c hm)
    simp [linesAndRest, ih hcs, hc]

/-- Unfolding `linesAndRest` one complete line at a time, in the shape
used by the loop of `processBuffer`. -/
theorem linesAndRest_of_mem {s : List Char} (h : '\n' ∈ s) :
    linesAndRest s =
      ((s.takeWhile (fun c => c != '\n')) ::
        (linesAndRest ((s.dropWhile (fun c => c != '\n')).tail)).1,
       (linesAndRest ((s.dropWhile (fun c => c != '\n')).tail)).2) := by
  induction s with
  | nil => cases h
  | cons c cs ih =>
    by_cases hc : c = '\n'
    · subst hc
      simp [linesAndRest, List.takeWhile_cons, List.dropWhile_cons]
    · have hmem : '\n' ∈ cs := by
        rcases List.mem_cons.mp h with h1 | h1
        · exact absurd h1.symm hc
        · exact h1
      have hcb : (c != '\n') = true := by simp [hc]
      rw [List.takeWhile_cons, List.dropWhile_cons]
      simp only [hcb, if_true]
      simp [linesAndRest, ih hmem, hc]

/-- The imperative loop `processBuffer` computes exactly the trimmed,
non-empty complete lines and the trailing fragment. -/
theorem processBuffer_spec (s : List Char) :
    processBuffer s = (emittedOf s, residual s) := by
  generalize hn : s.length = n
  induction n using Nat.strong_induction_on generalizing s with
  | _ n ih =>
    by_cases h : '\n' ∈ s
    · have hlt := dropWhile_tail_length_lt s h
      have ihs := ih ((s.dropWhile (fun c => c != '\n')).tail).length (hn ▸ hlt) _ rfl
      rw [processBuffer, dif_pos h]
      dsimp only
      rw [ihs]
      simp only [emittedOf, completeLines, residual, linesAndRest_of_mem h,
        List.map_cons, List.filter_cons, decide_eq_true_eq]
    · rw [processBuffer, dif_neg h]
      simp [emittedOf, completeLines, residual, linesAndRest_of_not_mem h]

/-- How the line/rest split of a concatenation is assembled from the
splits of the parts. -/
theorem linesAndRest_append (a b : List Char) :
    linesAndRest (a ++ b) =
      ((linesAndRest a).1 ++ (combineSplit (linesAndRest a).2 (linesAndRest b)).1,
       (combineSplit (linesAndRest a).2 (linesAndRest b)).2) := by
  induction a with
  | nil =>
    rcases hb : linesAndRest b with ⟨bl, br⟩
    cases bl <;> simp [linesAndRest, combineSplit, hb]
  | cons c cs ih =>
    by_cases hc : c = '\n'
    · subst hc
      simp [linesAndRest, ih]
    · rcases hA : linesAndRest cs with ⟨al, ar⟩
      rcases hB : linesAndRest b with ⟨bl, br⟩
      cases al with
      | nil =>
        cases bl with
        | nil => simp [linesAndRest, ih, hA, hB, combineSplit, hc]
        | cons m ms => simp [linesAndRest, ih, hA, hB, combineSplit, hc]
      | cons l ls => simp [linesAndRest, ih, hA, hB, combineSplit, hc]

/-- The trailing fragment never contains a newline: the decode buffer
holds at most one partial line between reads. -/
theorem residual_not_mem (s : List Char) : '\n' ∉ (linesAndRest s).2 := by
  induction s with
  | nil => simp [linesAndRest]
  | cons c cs ih =>
    by_cases hc : c = '\n'
    · subst hc
      simpa [linesAndRest] using ih
    · rcases hA : linesAndRest cs with ⟨al, ar⟩
      rw [hA] at ih
      cases al with
      | nil =>
        simp only [linesAndRest, hA, hc, if_false, List.mem_cons]
        rintro (h1 | h1)
        · exact hc h1.symm
        · exact ih h1
      | cons l ls => simpa [linesAndRest, hA, hc] using ih

/-- Splitting a concatenation: the complete lines of `a` come first, and
the rest is the split of `a`'s trailing fragment glued onto `b`. -/
theorem linesAndRest_residual_append (a b : List Char) :
    linesAndRest (a ++ b) =
      ((linesAndRest a).1 ++ (linesAndRest ((linesAndRest a).2 ++ b)).1,
       (linesAndRest ((linesAndRest a).2 ++ b)).2) := by
  have h2 := linesAndRest_append (linesAndRest a).2 b
  rw [linesAndRest_of_not_mem (residual_not_mem a)] at h2
  simp only [List.nil_append] at h2
  rw [linesAndRest_append a b, h2]

/-- Feeding chunks one at a time, starting from a newline-free buffer, is
the same as processing the buffer followed by the concatenation of the
chunks in one call. -/
theorem feedChunks_spec (cs : List (List Char)) (buf : List Char) (h : '\n' ∉ buf) :
    feedChunks buf cs = (emittedOf (buf ++ cs.flatten), residual (buf ++ cs.flatten)) := by
  induction cs generalizing buf with
  | nil =>
    simp [feedChunks, emittedOf, completeLines, residual,
      linesAndRest_of_not_mem h]
  | cons d ds ih =>
    have hres : '\n' ∉ residual (buf ++ d) := residual_not_mem _
    simp only [feedChunks, onData, processBuffer_spec]
    rw [ih _ hres]
    have key := linesAndRest_residual_append (buf ++ d) ds.flatten
    simp only [emittedOf, completeLines, residual, List.flatten_cons,
      ← List.append_assoc]
    rw [key]
    simp [List.filter_append]

/-- Character-level chunk invariance: feeding any chunking of a
character sequence equals processing the concatenation in one call. -/
theorem feedChunks_eq_processBuffer_flatten (cs : List (List Char)) :
    feedChunks [] cs = processBuffer cs.flatten := by
  rw [feedChunks_spec cs [] (by simp), processBuffer_spec]
  simp

/-! ### Lemmas about UTF-8 chunk decoding -/

/-- `utf8Decode` on the empty byte list. -/
theorem utf8Decode_nil : utf8Decode [] = [] := rfl

set_option maxHeartbeats 2000000 in
/-- One-step unfolding of `utf8Decode` (the equation of the definition,
restated with a constructor-shaped left-hand side). -/
theorem utf8Decode_cons (b : Nat) (bs : List Nat) :
    utf8Decode (b :: bs) =
      (if b < 0x80 then
        Char.ofNat b :: utf8Decode bs
      else if 0xC2 ≤ b ∧ b ≤ 0xDF then
        match bs with
        | [] => [replacementChar]
        | b1 :: rest =>
          if isUtf8Cont b1 then
            Char.ofNat ((b - 0xC0) * 0x40 + (b1 - 0x80)) :: utf8Decode rest
          else
            replacementChar :: utf8Decode (b1 :: rest)
      else if 0xE0 ≤ b ∧ b ≤ 0xEF then
        match bs with
        | [] => [replacementChar]
        | b1 :: rest =>
          if utf8First3Ok b b1 then
            match rest with
            | [] => [replacementChar]
            | b2 :: rest2 =>
              if isUtf8Cont b2 then
                Char.ofNat ((b - 0xE0) * 0x1000 + (b1 - 0x80) * 0x40 + (b2 - 0x80)) ::
                  utf8Decode rest2
              else
                replacementChar :: utf8Decode (b2 :: rest2)
          else
            replacementChar :: utf8Decode (b1 :: rest)
      else if 0xF0 ≤ b ∧ b ≤ 0xF4 then
        match bs with
        | [] => [replacementChar]
        | b1 :: rest =>
          if utf8First4Ok b b1 then
            match rest with
            | [] => [replacementChar]
            | b2 :: rest2 =>
              if isUtf8Cont b2 then
                match rest2 with
                | [] => [replacementChar]
                | b3 :: rest3 =>
                  if isUtf8Cont b3 then
                    Char.ofNat ((b - 0xF0) * 0x40000 + (b1 - 0x80) * 0x1000 +
                      (b2 - 0x80) * 0x40 + (b3 - 0x80)) :: utf8Decode rest3
                  else
                    replacementChar :: utf8Decode (b3 :: rest3)
              else
                replacementChar :: utf8Decode (b2 :: rest2)
          else
            replacementChar :: utf8Decode (b1 :: rest)
      else
        replacementChar :: utf8Decode bs) := by
  rw [utf8Decode.eq_def]

set_option maxHeartbeats 2000000 in
/-- One-step unfolding of `utf8Valid` (the equation of the definition,
restated with a constructor-shaped left-hand side). -/
theorem utf8Valid_cons (b : Nat) (bs : List Nat) :
    utf8Valid (b :: bs) =
      (if b < 0x80 then utf8Valid bs
       else if 0xC2 ≤ b ∧ b ≤ 0xDF then
         match bs with
         | [] => false
         | b1 :: rest => isUtf8Cont b1 && utf8Valid rest
       else if 0xE0 ≤ b ∧ b ≤ 0xEF then
         match bs with
         | [] => false
         | b1 :: rest =>
           utf8First3Ok b b1 &&
             match rest with
             | [] => false
             | b2 :: rest2 => isUtf8Cont b2 && utf8Valid rest2
       else if 0xF0 ≤ b ∧ b ≤ 0xF4 then
         match bs with
         | [] => false
         | b1 :: rest =>
           utf8First4Ok b b1 &&
             match rest with
             | [] => false
             | b2 :: rest2 =>
               isUtf8Cont b2 &&
                 match rest2 with
                 | [] => false
                 | b3 :: rest3 => isUtf8Cont b3 && utf8Valid rest3
       else false) := by
  rw [utf8Valid.eq_def]

/-- Decoding distributes over a well-formed prefix: appending further
bytes after complete characters cannot change how those characters
decode. -/
theorem utf8Decode_append_aux (b : List Nat) :
    ∀ n, ∀ a : List Nat, a.length ≤ n → utf8Valid a = true →
      utf8Decode (a ++ b) = utf8Decode a ++ utf8Decode b := by
  intro n
  induction n with
  | zero =>
    intro a ha _
    have hnil : a = [] := List.eq_nil_of_length_eq_zero (Nat.le_zero.mp ha)
    subst hnil
    simp [utf8Decode_nil]
  | succ n ih =>
    intro a ha hv
    cases a with
    | nil => simp [utf8Decode_nil]
    | cons b0 as =>
      have has : as.length ≤ n := by
        simp only [List.length_cons] at ha
        omega
      by_cases h0 : b0 < 0x80
      · have hv2 : utf8Valid as = true := by
          simp [utf8Valid_cons, h0] at hv
          exact hv
        simp [utf8Decode_cons, h0, ih as has hv2]
      · by_cases h2 : 0xC2 ≤ b0 ∧ b0 ≤ 0xDF
        · cases as with
          | nil => simp [utf8Valid_cons, h0, h2] at hv
          | cons b1 rest =>
            have hparts : isUtf8Cont b1 = true ∧ utf8Valid rest = true := by
              simp [utf8Valid_cons, h0, h2] at hv
              exact hv
            have hrest : rest.length ≤ n := by
              simp only [List.length_cons] at ha
              omega
            simp [utf8Decode_cons, h0, h2, hparts.1, ih rest hrest hparts.2]
        · by_cases h3 : 0xE0 ≤ b0 ∧ b0 ≤ 0xEF
          · cases as with
            | nil => simp [utf8Valid_cons, h0, h2, h3] at hv
            | cons b1 as1 =>
              cases as1 with
              | nil => simp [utf8Valid_cons, h0, h2, h3] at hv
              | cons b2 rest =>
                have hparts : utf8First3Ok b0 b1 = true ∧ isUtf8Cont b2 = true ∧
                    utf8Valid rest = true := by
                  simp [utf8Valid_cons, h0, h2, h3] at hv
                  exact hv
                have hrest : rest.length ≤ n := by
                  simp only [List.length_cons] at ha
                  omega
                simp [utf8Decode_cons, h0, h2, h3, hparts.1, hparts.2.1,
                  ih rest hrest hparts.2.2]
          · by_cases h4 : 0xF0 ≤ b0 ∧ b0 ≤ 0xF4
            · cases as with
              | nil => simp [utf8Valid_cons, h0, h2, h3, h4] at hv
              | cons b1 as1 =>
                cases as1 with
                | nil => simp [utf8Valid_cons, h0, h2, h3, h4] at hv
                | cons b2 as2 =>
                  cases as2 with
                  | nil => simp [utf8Valid_cons, h0, h2, h3, h4] at hv
                  | cons b3 rest =>
                    have hparts : utf8First4Ok b0 b1 = true ∧ isUtf8Cont b2 = true ∧
                        isUtf8Cont b3 = true ∧ utf8Valid rest = true := by
                      simp [utf8Valid_cons, h0, h2, h3, h4] at hv
                      exact hv
                    have hrest : rest.length ≤ n := by
                      simp only [List.length_cons] at ha
                      omega
                    simp [utf8Decode_cons, h0, h2, h3, h4, hparts.1, hparts.2.1,
                      hparts.2.2.1, ih rest hrest hparts.2.2.2]
            · simp [utf8Valid_cons, h0, h2, h3, h4] at hv

/-- Decoding distributes over appending to a well-formed prefix. -/
theorem utf8Decode_append (a b : List Nat) (h : utf8Valid a = true) :
    utf8Decode (a ++ b) = utf8Decode a ++ utf8Decode b :=
  utf8Decode_append_aux b a.length a (Nat.le_refl _) h

/-- Decoding a concatenation of well-formed chunks is decoding each
chunk separately. -/
theorem utf8Decode_flatten (bs : List (List Nat)) (h : ∀ d ∈ bs, utf8Valid d = true) :
    utf8Decode bs.flatten = (bs.map utf8Decode).flatten := by
  induction bs with
  | nil => rfl
  | cons d ds ih =>
    simp only [List.flatten_cons, List.map_cons]
    rw [utf8Decode_append d ds.flatten (h d (List.mem_cons_self d ds))]
    rw [ih (fun x hx => h x (List.mem_cons_of_mem d hx))]

/-! ## Claim theorems -/

/-- C1 counterexample: the byte sequence `C3 A9 0A` — the UTF-8 text
`"é\n"`, a text line joined by a line-break — split into the
consecutive chunks `[C3]` and `[A9, 0A]`, a split falling inside the
two-byte character `é`.  The handler decodes each chunk separately
(`data.toString()`), so the chunked feed sees two replacement
characters where the one-shot feed sees `é`, and the decoded records
differ. -/
theorem framing_byte_split_counterexample :
    ([[0xC3], [0xA9, 0x0A]] : List (List Nat)).flatten = [0xC3, 0xA9, 0x0A] ∧
    (feedChunks [] ([[0xC3], [0xA9, 0x0A]].map utf8Decode)).1 =
      [[replacementChar, replacementChar]] ∧
    (processBuffer (utf8Decode [0xC3, 0xA9, 0x0A])).1 = [['é']] ∧
    (feedChunks [] ([[0xC3], [0xA9, 0x0A]].map utf8Decode)).1 ≠
      (processBuffer (utf8Decode [0xC3, 0xA9, 0x0A])).1 := by
  have h1 : (feedChunks [] ([[0xC3], [0xA9, 0x0A]].map utf8Decode)).1 =
      [[replacementChar, replacementChar]] := by
    rw [feedChunks_spec ([[0xC3], [0xA9, 0x0A]].map utf8Decode) [] (by simp)]
    decide
  have h2 : (processBuffer (utf8Decode [0xC3, 0xA9, 0x0A])).1 = [['é']] := by
    rw [processBuffer_spec]
    decide
  refine ⟨rfl, h1, h2, ?_⟩
  rw [h1, h2]
  decide

/-- C1 (amended): for every byte sequence of UTF-8 text and every way
of splitting it into consecutive chunks at UTF-8 character boundaries —
each chunk is itself well-formed UTF-8; splits mid-line included,
splits inside a multi-byte character excluded — feeding the chunks one
at a time to the per-connection frame decoder yields exactly the same
decoded records, in the same order (and the same final buffer), as
feeding the whole sequence in a single call. -/
theorem framing_split_invariance_bytes (bs : List (List Nat))
    (h : ∀ d ∈ bs, utf8Valid d = true) :
    feedChunks [] (bs.map utf8Decode) = processBuffer (utf8Decode bs.flatten) := by
  rw [utf8Decode_flatten bs h]
  exact feedChunks_eq_processBuffer_flatten (bs.map utf8Decode)

/-- C1 witness: the UTF-8 bytes of `"hello\né!\n"` split mid-line and
between the characters `é` and `!`: chunk-wise and one-shot feeding
agree. -/
theorem framing_split_invariance_bytes_witness :
    (∀ d ∈ [[0x68, 0x65, 0x6C], [0x6C, 0x6F, 0x0A, 0xC3, 0xA9], [0x21, 0x0A]],
      utf8Valid d = true) ∧
    feedChunks []
        ([[0x68, 0x65, 0x6C], [0x6C, 0x6F, 0x0A, 0xC3, 0xA9], [0x21, 0x0A]].map
          utf8Decode) =
      processBuffer
        (utf8Decode
          [[0x68, 0x65, 0x6C], [0x6C, 0x6F, 0x0A, 0xC3, 0xA9], [0x21, 0x0A]].flatten) :=
  ⟨by decide, framing_split_invariance_bytes _ (by decide)⟩

/-- C2 counterexample: the chunk `"\n"` contains one complete
line-break-terminated line (the empty line), yet the decoder emits no
record for it — a complete line does not always yield exactly one
record. -/
theorem complete_line_once_counterexample :
    (completeLines (List.flatten [['\n']])).length = 1 ∧
    (feedChunks [] [['\n']]).1 = [] := by
  constructor
  · decide
  · rw [feedChunks_spec [['\n']] [] (by simp)]
    decide

/-- C2 (amended): for every sequence of feeds, every complete
line-break-terminated line is removed from the buffer exactly once and
yields at most one LogRecord — exactly one (its trimmed text) when the
line is non-empty after trimming, none otherwise — and between reads
the buffer holds exactly the trailing partial line fragment, which
contains no line-break. -/
theorem decode_buffer_invariant (cs : List (List Char)) :
    '\n' ∉ (feedChunks [] cs).2 ∧
    (feedChunks [] cs).2 = residual cs.flatten ∧
    (feedChunks [] cs).1 =
      ((completeLines cs.flatten).map trim).filter (fun l => decide (0 < l.length)) := by
  rw [feedChunks_spec cs [] (by simp)]
  refine ⟨by simpa [residual] using residual_not_mem cs.flatten, by simp,
    by simp [emittedOf]⟩

/-- C3 counterexample: feeding the single chunk `" "` leaves the
non-empty residual `" "` in the decode buffer, but closing the
connection emits no record at all — non-empty residual content is not
always emitted. -/
theorem residual_flush_counterexample :
    (feedChunks [] [[' ']]).2 = [' '] ∧ ([' '] : List Char) ≠ [] ∧
    onClose [' '] = [] := by
  refine ⟨?_, by decide, by decide⟩
  rw [feedChunks_spec [[' ']] [] (by simp)]
  decide

/-- C3 (amended): on connection close, a residual whose trimmed content
is non-empty is emitted as exactly one final LogRecord, namely the
trimmed residual (whitespace-only residuals are discarded); in
particular feeding `"orphan"` with no trailing line-break and then
closing the connection yields the one record `"orphan"`. -/
theorem residual_flush (buf : List Char) (h : 0 < (trim buf).length) :
    onClose buf = [trim buf] ∧
    onClose ((feedChunks [] ["orphan".data]).2) = ["orphan".data] := by
  constructor
  · simp [onClose, h]
  · rw [feedChunks_spec ["orphan".data] [] (by simp)]
    decide

/-- C3 witness: instantiating the amended residual-flush theorem at the
residual `" hi "`. -/
theorem residual_flush_witness :
    onClose " hi ".data = ["hi".data] ∧
    onClose ((feedChunks [] ["orphan".data]).2) = ["orphan".data] := by
  have h := residual_flush " hi ".data (by decide)
  exact ⟨h.1.trans (by decide), h.2⟩

/-- In any run of the aggregator, every batch handed to the delivery
sink is non-empty. -/
theorem runServer_deliveries_ne_nil (es : List ServerEvent) :
    ∀ st newTimerId, ∀ b ∈ (runServer st newTimerId es).2, b ≠ [] := by
  induction es with
  | nil =>
    intro st tid b hb
    simp [runServer] at hb
  | cons e es ih =>
    intro st tid b hb
    simp only [runServer, List.mem_append, Option.mem_toList, Option.mem_def] at hb
    rcases hb with hb | hb
    · cases e with
      | dataLines ls => simp [serverStep] at hb
      | serverDiag m => simp [serverStep] at hb
      | manualLog t => simp [serverStep] at hb
      | timerFire =>
        simp only [serverStep] at hb
        split at hb
        · simp only [fireBatchTimer] at hb
          split at hb
          · rename_i hcond
            simp only [Option.some.injEq] at hb
            subst hb
            simp only [Bool.and_eq_true, decide_eq_true_eq] at hcond
            exact List.length_pos.mp hcond.1
          · simp at hb
        · simp at hb
    · exact ih _ _ b hb

/-- C4: the debounce timer is armed exactly on the first append since the
last flush — an append finding an armed timer keeps it, identity
included, so it is never re-armed — and when the armed timer fires, the
entire accumulated batch is handed to the delivery sink as one ordered
unit only if it is non-empty (a delivered batch is never empty), after
which the batch resets to empty and the timer disarms. -/
theorem batch_aggregator_debounce (st : BatchState) (logs : List String)
    (tid t : Nat) (es : List ServerEvent) :
    (st.batchTimer = none → (queueLogs st logs tid).batchTimer = some tid) ∧
    (st.batchTimer = some t → (queueLogs st logs tid).batchTimer = some t) ∧
    (queueLogs st logs tid).logQueue = st.logQueue ++ logs ∧
    (∀ b ∈ (runServer st tid es).2, b ≠ []) ∧
    (st.batchTimer.isSome = true → st.logQueue ≠ [] →
      serverStep st tid ServerEvent.timerFire =
        ({ logQueue := [], batchTimer := none }, some st.logQueue)) := by
  refine ⟨?_, ?_, rfl, runServer_deliveries_ne_nil es st tid, ?_⟩
  · intro h
    simp [queueLogs, h]
  · intro h
    simp [queueLogs, h]
  · intro h1 h2
    simp [serverStep, h1, fireBatchTimer, List.length_pos.mpr h2]

/-- C4 witness: the first append arms the timer with the fresh identity,
a second append keeps the original timer, and the fire delivers the
whole batch and resets it. -/
theorem batch_aggregator_debounce_witness :
    (queueLogs ⟨[], none⟩ ["a"] 7).batchTimer = some 7 ∧
    (queueLogs ⟨["a"], some 7⟩ ["b"] 9).batchTimer = some 7 ∧
    serverStep ⟨["a", "b"], some 7⟩ 9 ServerEvent.timerFire =
      ({ logQueue := [], batchTimer := none }, some ["a", "b"]) := by
  have h1 := batch_aggregator_debounce ⟨[], none⟩ ["a"] 7 0 []
  have h2 := batch_aggregator_debounce ⟨["a"], some 7⟩ ["b"] 9 7 []
  have h3 := batch_aggregator_debounce ⟨["a", "b"], some 7⟩ ["x"] 9 7 []
  exact ⟨h1.1 rfl, h2.2.1 rfl, h3.2.2.2.2 rfl (by decide)⟩

/-- C5: `EnqueueLog` is a total, synchronous operation that cannot
suspend its caller: with the writer open it appends the record to the
outbound queue (touching nothing else), and after `Dispose` has
permanently completed the writer it is a silent no-op — no error, no
state change. -/
theorem enqueue_nonblocking (st : ClientState) (m : String) :
    (st.writerCompleted = false →
      EnqueueLog st m = { st with queue := st.queue ++ [m] }) ∧
    (st.writerCompleted = true → EnqueueLog st m = st) ∧
    (Dispose st).writerCompleted = true ∧
    EnqueueLog (Dispose st) m = Dispose st := by
  refine ⟨fun h => ?_, fun h => ?_, rfl, ?_⟩
  · simp [EnqueueLog, h]
  · simp [EnqueueLog, h]
  · simp [EnqueueLog, Dispose]

/-- C5 witness: enqueueing on a fresh service appends; enqueueing after
`Dispose` changes nothing. -/
theorem enqueue_nonblocking_witness :
    EnqueueLog initialClientState "a" =
      { initialClientState with queue := ["a"] } ∧
    EnqueueLog (Dispose initialClientState) "a" = Dispose initialClientState := by
  have h := enqueue_nonblocking initialClientState "a"
  exact ⟨(h.1 rfl).trans (by rfl), h.2.2.2⟩

/-- C6: when the socket write of the dequeued record fails, the
connected flag drops immediately, the successful-send transcript is
unchanged, and the consumer ends the iteration with the record removed
from the queue and not re-enqueued; the catch-all makes the whole step a
total state transformation, so no error reaches the enqueueing caller. -/
theorem send_failure_discards (st : ClientState) (msg : String) (rest : List String)
    (co : List Bool) (hq : st.queue = msg :: rest) (hc : st.isConnected = true) :
    (SendLogAsync st msg false).isConnected = false ∧
    (SendLogAsync st msg false).sent = st.sent ∧
    consumeStep st co false =
      { st with queue := rest, isConnected := false, streamWriter := none } := by
  refine ⟨?_, ?_, ?_⟩
  · simp [SendLogAsync]
  · simp [SendLogAsync]
  · simp [consumeStep, hq, hc, SendLogAsync]

/-- C6 witness: a failing write consumes the head record `"m"`, leaves
`"n"` queued, drops the connection, and sends nothing. -/
theorem send_failure_discards_witness :
    consumeStep ⟨["m", "n"], false, false, true, some 1, 1, 5000, []⟩ [] false =
      ⟨["n"], false, false, false, none, 1, 5000, []⟩ := by
  have h := send_failure_discards ⟨["m", "n"], false, false, true, some 1, 1, 5000, []⟩
    "m" ["n"] [] rfl rfl
  exact h.2.2.trans (by rfl)

/-- The retry loop on `k` failed attempts followed by a success: each
failure waits one retry delay, and the success installs a fresh stream
writer over the freshly created client generation. -/
theorem connectLoop_first_success (k : Nat) (rest : List Bool) :
    ∀ st : ClientState,
      connectLoop st (List.replicate k false ++ true :: rest) =
        ({ st with clientGen := st.clientGen + k + 1,
                   streamWriter := some (st.clientGen + k + 1),
                   isConnected := true }, k) := by
  induction k with
  | zero =>
    intro st
    simp [connectLoop]
  | succ k ih =>
    intro st
    rw [List.replicate_succ, List.cons_append]
    simp only [connectLoop, Bool.false_eq_true, if_false]
    rw [ih]
    simp only [Prod.mk.injEq]
    constructor
    · have harith : st.clientGen + 1 + k + 1 = st.clientGen + (k + 1) + 1 := by omega
      simp [harith]
    · simp

/-- The retry loop when every attempt fails until cancellation: one
attempt and one retry wait per outcome, still disconnected. -/
theorem connectLoop_all_fail (n : Nat) :
    ∀ st : ClientState, st.isConnected = false →
      connectLoop st (List.replicate n false) =
        ({ st with clientGen := st.clientGen + n }, n) := by
  induction n with
  | zero =>
    intro st h
    simp [connectLoop]
  | succ n ih =>
    intro st h
    rw [List.replicate_succ]
    simp only [connectLoop, Bool.false_eq_true, if_false]
    rw [ih _ rfl]
    simp only [Prod.mk.injEq]
    constructor
    · have harith : st.clientGen + 1 + n = st.clientGen + (n + 1) := by omega
      simp [harith, ← h]
    · simp

/-- C7: starting from `Disconnected`, `ConnectWithRetryAsync` attempts a
connection; each failed attempt is followed by one wait of the
configured retry delay (whose configured default is 5000 ms) before the
next attempt; it repeats until an attempt succeeds or cancellation
exhausts the attempts; on the first success it installs a fresh write
stream over the newly created client and sets the state to connected. -/
theorem connect_with_retry (st : ClientState) (k n : Nat) (rest : List Bool)
    (hdis : st.isConnected = false) :
    (ConnectWithRetryAsync st (List.replicate k false ++ true :: rest)).1.isConnected
        = true ∧
    (ConnectWithRetryAsync st (List.replicate k false ++ true :: rest)).1.streamWriter
        = some (st.clientGen + k + 1) ∧
    st.clientGen < st.clientGen + k + 1 ∧
    (ConnectWithRetryAsync st (List.replicate k false ++ true :: rest)).2 = k ∧
    initialClientState.RetryDelay = defaultRetryDelay ∧
    defaultRetryDelay = 5000 ∧
    (ConnectWithRetryAsync st (List.replicate n false)).1.isConnected = false ∧
    (ConnectWithRetryAsync st (List.replicate n false)).2 = n := by
  have h1 := connectLoop_first_success k rest st
  have h2 := connectLoop_all_fail n st hdis
  rw [ConnectWithRetryAsync, if_neg (by simp [hdis])]
  rw [ConnectWithRetryAsync, if_neg (by simp [hdis])]
  rw [h1, h2]
  refine ⟨rfl, rfl, by omega, rfl, rfl, rfl, ?_, rfl⟩
  simp [hdis]

/-- C7 witness: two failed attempts then a success, from a fresh
service, connects with a fresh stream writer after two retry waits; and
three failures until cancellation leave it disconnected after three
waits. -/
theorem connect_with_retry_witness :
    (ConnectWithRetryAsync initialClientState [false, false, true]).1.isConnected
        = true ∧
    (ConnectWithRetryAsync initialClientState [false, false, true]).1.streamWriter
        = some 3 ∧
    (ConnectWithRetryAsync initialClientState [false, false, true]).2 = 2 ∧
    (ConnectWithRetryAsync initialClientState [false, false, false]).1.isConnected
        = false ∧
    (ConnectWithRetryAsync initialClientState [false, false, false]).2 = 3 := by
  have h := connect_with_retry initialClientState 2 3 [] rfl
  have hr : List.replicate 2 false ++ true :: ([] : List Bool) = [false, false, true] := by
    decide
  have hr3 : List.replicate 3 false = [false, false, false] := by decide
  rw [hr] at h
  rw [hr3] at h
  exact ⟨h.1, h.2.1, h.2.2.2.1, h.2.2.2.2.2.2⟩

/-- C8 counterexample: stopping when no server is running reports
success, but it has an observable side effect — a `[SERVER]` diagnostic
record is queued to the shared batch (from where it is delivered to the
sink), so the resulting state differs from the initial one. -/
theorem start_stop_counterexample :
    ((handleStopServer ⟨none, false, [], ⟨[], none⟩⟩ 0).2 = true) ∧
    (handleStopServer ⟨none, false, [], ⟨[], none⟩⟩ 0).1.batch.logQueue =
      ["[SERVER] Server is not running."] ∧
    (handleStopServer ⟨none, false, [], ⟨[], none⟩⟩ 0).1 ≠
      (⟨none, false, [], ⟨[], none⟩⟩ : AppState) := by
  refine ⟨rfl, by decide, by decide⟩

/-- C8 (amended): stopping a non-running server succeeds and leaves the
server handle, the stopping flag and the connection set untouched,
though it queues one `[SERVER] Server is not running.` diagnostic
record to the batch; starting while a server exists or while a stop is
in progress is rejected with an error and likewise leaves the server
handle, stopping flag and connection set untouched. -/
theorem start_stop_idempotence (st : AppState) (port tid : Nat) (bindOk : Bool) :
    (st.server = none →
      handleStopServer st tid =
        ({ st with batch := logToServerUI st.batch "Server is not running." tid },
         true)) ∧
    (st.server.isSome = true ∨ st.isStopping = true →
      handleStartServer st port bindOk tid =
        ({ st with batch := logToServerUI st.batch (startRejectMsg st) tid },
         StartResult.error (startRejectMsg st)) ∧
      (handleStartServer st port bindOk tid).1.clientSockets = st.clientSockets ∧
      (handleStartServer st port bindOk tid).1.server = st.server ∧
      (handleStartServer st port bindOk tid).1.isStopping = st.isStopping) := by
  constructor
  · intro h
    simp [handleStopServer, h]
  · intro h
    have hcond : (st.server.isSome || st.isStopping) = true := by
      rcases h with h | h <;> simp [h]
    refine ⟨?_, ?_, ?_, ?_⟩ <;> rw [handleStartServer, if_pos hcond]

/-- C8 witness: starting while a server is already running on port 8080
is rejected and touches neither the server handle nor the socket set;
stopping with no server gives success. -/
theorem start_stop_idempotence_witness :
    handleStartServer ⟨some 8080, false, [3], ⟨[], none⟩⟩ 9090 true 5 =
      (⟨some 8080, false, [3],
        ⟨["[SERVER] Server is already running."], some 5⟩⟩,
       StartResult.error "Server is already running.") ∧
    handleStopServer ⟨none, true, [], ⟨[], none⟩⟩ 2 =
      (⟨none, true, [], ⟨["[SERVER] Server is not running."], some 2⟩⟩, true) := by
  have h1 := start_stop_idempotence ⟨some 8080, false, [3], ⟨[], none⟩⟩ 9090 5 true
  have h2 := start_stop_idempotence ⟨none, true, [], ⟨[], none⟩⟩ 9090 2 true
  exact ⟨((h1.2 (Or.inl rfl)).1).trans (by decide), (h2.1 rfl).trans (by decide)⟩

/-- C9 counterexample: a structured entry with exception detail is
formatted with `Environment.NewLine` before the detail, so the text
handed to the outbound queue is not a single line. -/
theorem structured_format_counterexample :
    '\n' ∈ (formatLogEntry LogLevel.Error "Svc" "failed" (some "boom") "Run").data ∧
    EnqueueLogStructured initialClientState LogLevel.Error "Svc" "failed"
        (some "boom") "Run" =
      EnqueueLog initialClientState
        (formatLogEntry LogLevel.Error "Svc" "failed" (some "boom") "Run") := by
  exact ⟨by decide, rfl⟩

/-- C9 (amended): every structured enqueue call formats the entry into a
single text string — `[level] [source::method] message`, with the
exception detail, when present, appended after a line-break — and
enqueues exactly that string; the result is a single line when no
exception detail is supplied (and the fields contain no line-breaks),
and spans multiple lines whenever exception detail is present. -/
theorem structured_enqueue_format (st : ClientState) (level : LogLevel)
    (source message methodName : String) (ex : Option String)
    (hs : '\n' ∉ source.data) (hm : '\n' ∉ message.data)
    (hn : '\n' ∉ methodName.data) :
    EnqueueLogStructured st level source message ex methodName =
      EnqueueLog st (formatLogEntry level source message ex methodName) ∧
    (ex = none → '\n' ∉ (formatLogEntry level source message ex methodName).data) ∧
    (∀ e, ex = some e →
      '\n' ∈ (formatLogEntry level source message ex methodName).data) := by
  have hlevel : '\n' ∉ level.toText.data := by
    cases level <;> decide
  refine ⟨rfl, ?_, ?_⟩
  · rintro rfl
    simp only [formatLogEntry, String.data_append, List.mem_append, not_or]
    exact ⟨⟨⟨⟨⟨⟨⟨by decide, hlevel⟩, by decide⟩, hs⟩, by decide⟩, hn⟩, by decide⟩, hm⟩
  · rintro e rfl
    simp only [formatLogEntry, String.data_append, List.mem_append]
    left
    right
    decide

/-- C9 witness: an exception-free entry is enqueued as the single line
`[Info] [Svc::Run] ok`; with an exception the enqueued text contains a
line-break. -/
theorem structured_enqueue_format_witness :
    EnqueueLogStructured initialClientState LogLevel.Info "Svc" "ok" none "Run" =
      EnqueueLog initialClientState "[Info] [Svc::Run] ok" ∧
    '\n' ∉ ("[Info] [Svc::Run] ok").data ∧
    '\n' ∈ (formatLogEntry LogLevel.Info "Svc" "ok" (some "ex") "Run").data := by
  have h := structured_enqueue_format initialClientState LogLevel.Info "Svc" "ok" "Run"
    none (by decide) (by decide) (by decide)
  have h2 := structured_enqueue_format initialClientState LogLevel.Info "Svc" "ok" "Run"
    (some "ex") (by decide) (by decide) (by decide)
  refine ⟨?_, by decide, h2.2.2 "ex" rfl⟩
  have hf : formatLogEntry LogLevel.Info "Svc" "ok" none "Run" = "[Info] [Svc::Run] ok" := by
    decide
  rw [← hf]
  exact h.1

/-- C10: every receiving-side lifecycle diagnostic is appended to the
same batch as producer records with the `[SERVER] ` marker, and every
locally injected manual entry with the `[MANUAL] ` marker; consequently
a batch delivered to the sink can contain records that no network
producer sent. -/
theorem server_and_manual_records (st : BatchState) (m t : String) (tid : Nat) :
    logToServerUI st m tid = queueLogs st ["[SERVER] " ++ m] tid ∧
    (logToServerUI st m tid).logQueue = st.logQueue ++ ["[SERVER] " ++ m] ∧
    addManualLog st t tid = queueLogs st ["[MANUAL] " ++ t] tid ∧
    (addManualLog st t tid).logQueue = st.logQueue ++ ["[MANUAL] " ++ t] ∧
    ((runServer ⟨[], none⟩ 0
        [ServerEvent.serverDiag "Client connected: 10.0.0.5:50000",
         ServerEvent.manualLog "note",
         ServerEvent.dataLines ["hello"],
         ServerEvent.timerFire]).2 =
      [["[SERVER] Client connected: 10.0.0.5:50000", "[MANUAL] note", "hello"]] ∧
     "[SERVER] Client connected: 10.0.0.5:50000" ∉
       producerLines
        [ServerEvent.serverDiag "Client connected: 10.0.0.5:50000",
         ServerEvent.manualLog "note",
         ServerEvent.dataLines ["hello"],
         ServerEvent.timerFire]) := by
  exact ⟨rfl, rfl, rfl, rfl, by decide, by decide⟩

end MauiRemoteLogging
